import Mathlib

/-
Verification of the job execution and live-progress subsystem of the
RemoteGenerationService repository.

The development shallowly embeds:
  * app/services/real/comfyui_service.py : parameter injection into a
    workflow graph (inject_params), workflow listing (list_workflows) and
    the submit/poll/download protocol (submit_workflow, _download_output);
  * app/services/job_service.py : execution routing and the progress
    callback sequence (execute_job, _execute_mock, _execute_real);
  * app/core/job_queue.py : the worker loop's pre-check and terminal
    transition (_worker_loop);
  * app/routers/jobs.py : the external cancel request (cancel_job);
  * app/core/events.py : the per-job progress bus (subscribe, unsubscribe,
    broadcast).

Machine integers are modelled as Nat/Int; Python dicts as association
lists in insertion order; the nondeterministic random 32-bit seed and the
external HTTP environment are explicit parameters.
-/

namespace RGS

/-! ## Workflow graph model (comfyui_service.py) -/

/-- A JSON scalar stored in a node input field or in the request parameter
mapping.  The injection code only compares and copies these values. -/
inductive PVal
  | i (n : Int)
  | s (t : String)
deriving DecidableEq, Repr

/-- A ComfyUI workflow node: its `class_type` tag, the title taken from its
`_meta` mapping (`""` when absent, mirroring `meta.get("title", "")`), and
its `inputs` mapping in insertion order. -/
structure Node where
  class_type : String
  title : String
  inputs : List (String × PVal)
deriving DecidableEq, Repr

/-- A workflow graph: node id to node, as `workflow.items()` iterates it. -/
abbrev Graph := List (String × Node)

/-- Lookup of a field in a node/param mapping (Python `d[k]` / `k in d`). -/
def getF : List (String × PVal) → String → Option PVal
  | [], _ => none
  | (k, v) :: t, f => if k = f then some v else getF t f

/-- In-place overwrite of an existing key (Python `d[k] = v` on a dict that
already holds `k`; insertion order is preserved). -/
def setField : List (String × PVal) → String → PVal → List (String × PVal)
  | [], _, _ => []
  | (k, w) :: t, f, v =>
    if k = f then (f, v) :: setField t f v else (k, w) :: setField t f v

/-- The guarded update pattern used throughout `inject_params`:
`if f in inputs: inputs[f] = params.get(pk, inputs[f])`. -/
def overwriteFrom (params inputs : List (String × PVal)) (pk f : String) :
    List (String × PVal) :=
  match getF inputs f with
  | some cur => setField inputs f ((getF params pk).getD cur)
  | none => inputs

/-- Lower-case code point of a character (ASCII case folding, modelling
`str.lower()` on the ASCII titles the heuristic inspects). -/
def lowN (c : Char) : Nat :=
  let n := c.toNat
  if 65 ≤ n ∧ n ≤ 90 then n + 32 else n

/-- Code points of a string after lower-casing. -/
def lowerData (s : String) : List Nat := s.data.map lowN

def isPrefixN : List Nat → List Nat → Bool
  | [], _ => true
  | _ :: _, [] => false
  | a :: as, b :: bs => a = b && isPrefixN as bs

/-- Substring test `pat in hay` on code-point lists. -/
def containsSub (pat : List Nat) : List Nat → Bool
  | [] => isPrefixN pat []
  | h :: t => isPrefixN pat (h :: t) || containsSub pat t

/-- Model of `"negative" in title.lower() or "neg" in title.lower()`. -/
def isNegativeTitle (title : String) : Bool :=
  containsSub (lowerData "negative") (lowerData title) ||
    containsSub (lowerData "neg") (lowerData title)

def latentTypes : List String :=
  ["EmptyLatentImage", "EmptySD3LatentImage", "EmptyHunyuanLatentVideo"]

def samplerTypes : List String := ["KSampler", "KSamplerAdvanced"]

/-- Seed resolution at the top of `inject_params`:
`seed = params.get("seed", -1); if seed == -1: seed = random.randint(0, 2**32-1)`.
`rand` is the value drawn by `random.randint`, made explicit. -/
def resolveSeed (params : List (String × PVal)) (rand : Nat) : PVal :=
  match getF params "seed" with
  | none => .i rand
  | some v => if v = .i (-1) then .i rand else v

/-- The `CLIPTextEncode` block of `inject_params`: a present `text` field is
overwritten from `negative_prompt` when the node title contains
"negative"/"neg" (case-insensitive), else from `prompt`. -/
def stageCLIP (params : List (String × PVal)) (ct title : String)
    (inputs : List (String × PVal)) : List (String × PVal) :=
  if ct = "CLIPTextEncode" then
    if isNegativeTitle title then
      overwriteFrom params inputs "negative_prompt" "text"
    else
      overwriteFrom params inputs "prompt" "text"
  else inputs

/-- The empty-latent block of `inject_params` (width/height/batch_size and
`frames` mapped onto a present `length` field). -/
def stageLatent (params : List (String × PVal)) (ct : String)
    (inputs : List (String × PVal)) : List (String × PVal) :=
  if ct ∈ latentTypes then
    overwriteFrom params
      (overwriteFrom params
        (overwriteFrom params
          (overwriteFrom params inputs "width" "width")
          "height" "height")
        "batch_size" "batch_size")
      "frames" "length"
  else inputs

/-- The sampler block of `inject_params`: steps, `cfg_scale` mapped onto
`cfg`, and the resolved seed written into present `seed`/`noise_seed`
fields unconditionally. -/
def stageSampler (params : List (String × PVal)) (seedv : PVal) (ct : String)
    (inputs : List (String × PVal)) : List (String × PVal) :=
  if ct ∈ samplerTypes then
    let i1 := overwriteFrom params inputs "steps" "steps"
    let i2 := overwriteFrom params i1 "cfg_scale" "cfg"
    let i3 :=
      match getF i2 "seed" with
      | some _ => setField i2 "seed" seedv
      | none => i2
    match getF i3 "noise_seed" with
    | some _ => setField i3 "noise_seed" seedv
    | none => i3
  else inputs

/-- The trailing fps block of `inject_params`, applied to every node. -/
def stageFps (params inputs : List (String × PVal)) : List (String × PVal) :=
  overwriteFrom params inputs "fps" "fps"

/-- One node's pass through the `inject_params` loop body. -/
def injectNode (params : List (String × PVal)) (seedv : PVal) (node : Node) :
    Node :=
  { node with
    inputs :=
      stageFps params
        (stageSampler params seedv node.class_type
          (stageLatent params node.class_type
            (stageCLIP params node.class_type node.title node.inputs))) }

/-- Model of `ComfyUIService.inject_params`: deep-copies the workflow, resolves the
seed once, and rewrites every node.  `rand` is the value the single
`random.randint(0, 2**32 - 1)` call would return. -/
def inject_params (rand : Nat) (workflow : Graph)
    (params : List (String × PVal)) : Graph :=
  let seedv := resolveSeed params rand
  workflow.map fun p => (p.1, injectNode params seedv p.2)

/-! ### Basic lemmas about field updates -/

theorem getF_setField_self (inputs : List (String × PVal)) (f : String)
    (v : PVal) :
    getF (setField inputs f v) f = (getF inputs f).map fun _ => v := by
  induction inputs with
  | nil => rfl
  | cons p t ih =>
    obtain ⟨k, w⟩ := p
    by_cases h : k = f
    · subst h
      simp [setField, getF]
    · simp [setField, getF, h, ih]

theorem getF_setField_ne (inputs : List (String × PVal)) {f g : String}
    (v : PVal) (h : g ≠ f) :
    getF (setField inputs f v) g = getF inputs g := by
  induction inputs with
  | nil => rfl
  | cons p t ih =>
    obtain ⟨k, w⟩ := p
    by_cases hk : k = f
    · subst hk
      simp [setField, getF, Ne.symm h, ih]
    · by_cases hg : k = g
      · subst hg
        simp [setField, getF, hk]
      · simp [setField, getF, hk, hg, ih]

theorem keys_setField (inputs : List (String × PVal)) (f : String) (v : PVal) :
    (setField inputs f v).map Prod.fst = inputs.map Prod.fst := by
  induction inputs with
  | nil => rfl
  | cons p t ih =>
    obtain ⟨k, w⟩ := p
    by_cases h : k = f
    · subst h
      simp [setField, ih]
    · simp [setField, h, ih]

theorem setField_not_mem {inputs : List (String × PVal)} {f : String}
    (v : PVal) (h : f ∉ inputs.map Prod.fst) : setField inputs f v = inputs := by
  induction inputs with
  | nil => rfl
  | cons p t ih =>
    obtain ⟨k, w⟩ := p
    simp only [List.map_cons, List.mem_cons, not_or] at h
    simp [setField, Ne.symm h.1, ih h.2]

/-- Rewriting a present key with its current first value is the identity
when keys are unique (as they are in a Python dict). -/
theorem setField_self_of_nodup {inputs : List (String × PVal)} {f : String}
    {cur : PVal} (hnd : (inputs.map Prod.fst).Nodup)
    (h : getF inputs f = some cur) : setField inputs f cur = inputs := by
  induction inputs with
  | nil => rfl
  | cons p t ih =>
    obtain ⟨k, w⟩ := p
    simp only [List.map_cons, List.nodup_cons] at hnd
    by_cases hk : k = f
    · subst hk
      simp [getF] at h
      subst h
      simp [setField, setField_not_mem _ hnd.1]
    · simp only [getF, if_neg hk] at h
      simp [setField, hk, ih hnd.2 h]

theorem keys_overwriteFrom (params inputs : List (String × PVal))
    (pk f : String) :
    (overwriteFrom params inputs pk f).map Prod.fst = inputs.map Prod.fst := by
  unfold overwriteFrom
  cases h : getF inputs f with
  | none => rfl
  | some cur => exact keys_setField ..

theorem getF_overwriteFrom_ne (params inputs : List (String × PVal))
    {pk f g : String} (h : g ≠ f) :
    getF (overwriteFrom params inputs pk f) g = getF inputs g := by
  unfold overwriteFrom
  cases hc : getF inputs f with
  | none => rfl
  | some cur => exact getF_setField_ne inputs _ h

theorem getF_overwriteFrom_self (params inputs : List (String × PVal))
    (pk f : String) :
    getF (overwriteFrom params inputs pk f) f =
      (getF inputs f).map fun cur => (getF params pk).getD cur := by
  unfold overwriteFrom
  cases hc : getF inputs f with
  | none => simp [hc]
  | some cur => simp [getF_setField_self, hc]

theorem overwriteFrom_id_of_param_none {params : List (String × PVal)}
    (inputs : List (String × PVal)) {pk : String} (f : String)
    (hp : getF params pk = none) (hnd : (inputs.map Prod.fst).Nodup) :
    overwriteFrom params inputs pk f = inputs := by
  unfold overwriteFrom
  cases hc : getF inputs f with
  | none => rfl
  | some cur =>
    simp only [hp, Option.getD_none]
    exact setField_self_of_nodup hnd hc

/-! ### Stage-level lemmas -/

theorem stageCLIP_of_ne {ct : String} (params : List (String × PVal))
    (title : String) (inputs : List (String × PVal))
    (h : ct ≠ "CLIPTextEncode") : stageCLIP params ct title inputs = inputs := by
  simp [stageCLIP, h]

theorem stageLatent_of_not_mem {ct : String} (params : List (String × PVal))
    (inputs : List (String × PVal)) (h : ct ∉ latentTypes) :
    stageLatent params ct inputs = inputs := by
  simp [stageLatent, h]

theorem stageSampler_of_not_mem {ct : String} (params : List (String × PVal))
    (seedv : PVal) (inputs : List (String × PVal)) (h : ct ∉ samplerTypes) :
    stageSampler params seedv ct inputs = inputs := by
  simp [stageSampler, h]

theorem stageFps_of_none (params : List (String × PVal))
    {inputs : List (String × PVal)} (h : getF inputs "fps" = none) :
    stageFps params inputs = inputs := by
  simp [stageFps, overwriteFrom, h]

theorem keys_stageCLIP (params : List (String × PVal)) (ct title : String)
    (inputs : List (String × PVal)) :
    (stageCLIP params ct title inputs).map Prod.fst = inputs.map Prod.fst := by
  unfold stageCLIP
  by_cases hct : ct = "CLIPTextEncode"
  · by_cases hn : isNegativeTitle title <;> simp [hct, hn, keys_overwriteFrom]
  · simp [hct]

theorem keys_stageLatent (params : List (String × PVal)) (ct : String)
    (inputs : List (String × PVal)) :
    (stageLatent params ct inputs).map Prod.fst = inputs.map Prod.fst := by
  unfold stageLatent
  by_cases hct : ct ∈ latentTypes
  · simp [hct, keys_overwriteFrom]
  · simp [hct]

theorem keys_stageSampler (params : List (String × PVal)) (seedv : PVal)
    (ct : String) (inputs : List (String × PVal)) :
    (stageSampler params seedv ct inputs).map Prod.fst =
      inputs.map Prod.fst := by
  unfold stageSampler
  by_cases hct : ct ∈ samplerTypes
  · simp only [if_pos hct]
    cases h1 : getF (overwriteFrom params (overwriteFrom params inputs "steps" "steps") "cfg_scale" "cfg") "seed" with
    | none =>
      cases h2 : getF (overwriteFrom params (overwriteFrom params inputs "steps" "steps") "cfg_scale" "cfg") "noise_seed" with
      | none => simp [keys_overwriteFrom]
      | some c => simp [keys_setField, keys_overwriteFrom]
    | some c =>
      cases h2 : getF (setField (overwriteFrom params (overwriteFrom params inputs "steps" "steps") "cfg_scale" "cfg") "seed" seedv) "noise_seed" with
      | none => simp [keys_setField, keys_overwriteFrom]
      | some c2 => simp [keys_setField, keys_overwriteFrom]
  · simp [hct]

theorem keys_injectNode (params : List (String × PVal)) (seedv : PVal)
    (node : Node) :
    (injectNode params seedv node).inputs.map Prod.fst =
      node.inputs.map Prod.fst := by
  unfold injectNode stageFps
  simp [keys_overwriteFrom, keys_stageSampler, keys_stageLatent, keys_stageCLIP]

theorem getF_isSome_iff_mem (inputs : List (String × PVal)) (f : String) :
    (getF inputs f).isSome ↔ f ∈ inputs.map Prod.fst := by
  induction inputs with
  | nil => simp [getF]
  | cons p t ih =>
    obtain ⟨k, w⟩ := p
    by_cases h : k = f
    · subst h
      simp [getF]
    · simp [getF, h, ih, Ne.symm h]

theorem sampler_facts {ct : String} (h : ct ∈ samplerTypes) :
    ct ≠ "CLIPTextEncode" ∧ ct ∉ latentTypes := by
  simp only [samplerTypes, List.mem_cons, List.not_mem_nil, or_false] at h
  rcases h with rfl | rfl <;> exact ⟨by decide, by decide⟩

/-! ### Seed resolution and seed-field lemmas (for C6) -/

theorem getF_stageSampler_seed (params : List (String × PVal)) (seedv : PVal)
    {ct : String} (hct : ct ∈ samplerTypes) {inputs : List (String × PVal)}
    {f : String} (hf : f = "seed" ∨ f = "noise_seed")
    (hp : (getF inputs f).isSome) :
    getF (stageSampler params seedv ct inputs) f = some seedv := by
  unfold stageSampler
  simp only [if_pos hct]
  rcases hf with rfl | rfl
  · have h2 : getF (overwriteFrom params (overwriteFrom params inputs "steps" "steps") "cfg_scale" "cfg") "seed" = getF inputs "seed" := by
      rw [getF_overwriteFrom_ne params _ (by decide),
        getF_overwriteFrom_ne params _ (by decide)]
    obtain ⟨c, hc⟩ := Option.isSome_iff_exists.mp hp
    rw [hc] at h2
    simp only [h2]
    have h3 : getF (setField (overwriteFrom params (overwriteFrom params inputs "steps" "steps") "cfg_scale" "cfg") "seed" seedv) "seed" = some seedv := by
      rw [getF_setField_self, h2]
      rfl
    cases hns : getF (setField (overwriteFrom params (overwriteFrom params inputs "steps" "steps") "cfg_scale" "cfg") "seed" seedv) "noise_seed" with
    | none => simpa using h3
    | some c2 =>
      simpa [getF_setField_ne _ _ (by decide : ("seed" : String) ≠ "noise_seed")] using h3
  · have h2 : getF (overwriteFrom params (overwriteFrom params inputs "steps" "steps") "cfg_scale" "cfg") "noise_seed" = getF inputs "noise_seed" := by
      rw [getF_overwriteFrom_ne params _ (by decide),
        getF_overwriteFrom_ne params _ (by decide)]
    obtain ⟨c, hc⟩ := Option.isSome_iff_exists.mp hp
    cases hs : getF (overwriteFrom params (overwriteFrom params inputs "steps" "steps") "cfg_scale" "cfg") "seed" with
    | none =>
      rw [hc] at h2
      simp only [h2]
      rw [getF_setField_self, h2]
      rfl
    | some c1 =>
      have h4 : getF (setField (overwriteFrom params (overwriteFrom params inputs "steps" "steps") "cfg_scale" "cfg") "seed" seedv) "noise_seed" = some c := by
        rw [getF_setField_ne _ _ (by decide : ("noise_seed" : String) ≠ "seed"), h2, hc]
      simp only [h4]
      rw [getF_setField_self, h4]
      rfl

theorem getF_injectNode_seed (params : List (String × PVal)) (seedv : PVal)
    {node : Node} (hct : node.class_type ∈ samplerTypes) {f : String}
    (hf : f = "seed" ∨ f = "noise_seed")
    (hp : (getF node.inputs f).isSome) :
    getF (injectNode params seedv node).inputs f = some seedv := by
  obtain ⟨hclip, hlat⟩ := sampler_facts hct
  unfold injectNode
  simp only
  rw [stageCLIP_of_ne params _ _ hclip, stageLatent_of_not_mem params _ hlat]
  have hfps : f ≠ "fps" := by rcases hf with rfl | rfl <;> decide
  unfold stageFps
  rw [getF_overwriteFrom_ne params _ hfps]
  exact getF_stageSampler_seed params seedv hct hf hp

/-! ### Empty-parameter injection (for C5) -/

theorem overwriteFrom_nil (inputs : List (String × PVal)) (pk f : String)
    (hnd : (inputs.map Prod.fst).Nodup) :
    overwriteFrom [] inputs pk f = inputs :=
  overwriteFrom_id_of_param_none inputs f rfl hnd

theorem stageCLIP_nil (ct title : String) {inputs : List (String × PVal)}
    (hnd : (inputs.map Prod.fst).Nodup) :
    stageCLIP [] ct title inputs = inputs := by
  unfold stageCLIP
  by_cases hct : ct = "CLIPTextEncode"
  · by_cases hn : isNegativeTitle title <;>
      simp [hct, hn, overwriteFrom_nil inputs "negative_prompt" "text" hnd,
        overwriteFrom_nil inputs "prompt" "text" hnd]
  · simp [hct]

theorem stageLatent_nil (ct : String) {inputs : List (String × PVal)}
    (hnd : (inputs.map Prod.fst).Nodup) :
    stageLatent [] ct inputs = inputs := by
  unfold stageLatent
  by_cases hct : ct ∈ latentTypes
  · simp only [if_pos hct, overwriteFrom_nil inputs "width" "width" hnd,
      overwriteFrom_nil inputs "height" "height" hnd,
      overwriteFrom_nil inputs "batch_size" "batch_size" hnd,
      overwriteFrom_nil inputs "frames" "length" hnd]
  · simp [hct]

theorem stageSampler_nil (seedv : PVal) (ct : String)
    {inputs : List (String × PVal)} (hnd : (inputs.map Prod.fst).Nodup)
    (hseed : ct ∈ samplerTypes →
      getF inputs "seed" = none ∧ getF inputs "noise_seed" = none) :
    stageSampler [] seedv ct inputs = inputs := by
  unfold stageSampler
  by_cases hct : ct ∈ samplerTypes
  · obtain ⟨hs, hn⟩ := hseed hct
    simp only [if_pos hct, overwriteFrom_nil inputs "steps" "steps" hnd,
      overwriteFrom_nil inputs "cfg_scale" "cfg" hnd, hs, hn]
  · simp [hct]

theorem stageFps_nil {inputs : List (String × PVal)}
    (hnd : (inputs.map Prod.fst).Nodup) : stageFps [] inputs = inputs := by
  unfold stageFps
  exact overwriteFrom_nil inputs "fps" "fps" hnd

theorem injectNode_nil (seedv : PVal) {node : Node}
    (hnd : (node.inputs.map Prod.fst).Nodup)
    (hseed : node.class_type ∈ samplerTypes →
      getF node.inputs "seed" = none ∧ getF node.inputs "noise_seed" = none) :
    injectNode [] seedv node = node := by
  unfold injectNode
  rw [stageCLIP_nil _ _ hnd, stageLatent_nil _ hnd,
    stageSampler_nil seedv _ hnd hseed, stageFps_nil hnd]

/-! ### Value provenance (for C7): every field value in the injected node is
the old value, the value supplied by the field's corresponding param key,
or the resolved seed on a sampler node's seed field. -/

/-- The field-to-param-key correspondence read off the branches of
`inject_params` (comfyui_service.py lines 79-113): the `params` key whose
value the code writes into field `f` of a node with type tag `ct` and
title `title`.  `none` means no branch of the code ever writes the
field. -/
def paramKeyFor (ct title f : String) : Option String :=
  if ct = "CLIPTextEncode" ∧ f = "text" then
    some (if isNegativeTitle title then "negative_prompt" else "prompt")
  else if ct ∈ latentTypes ∧ f = "width" then some "width"
  else if ct ∈ latentTypes ∧ f = "height" then some "height"
  else if ct ∈ latentTypes ∧ f = "batch_size" then some "batch_size"
  else if ct ∈ latentTypes ∧ f = "length" then some "frames"
  else if ct ∈ samplerTypes ∧ f = "steps" then some "steps"
  else if ct ∈ samplerTypes ∧ f = "cfg" then some "cfg_scale"
  else if f = "fps" then some "fps"
  else none

theorem latent_facts {ct : String} (h : ct ∈ latentTypes) :
    ct ≠ "CLIPTextEncode" ∧ ct ∉ samplerTypes := by
  simp only [latentTypes, List.mem_cons, List.not_mem_nil, or_false] at h
  rcases h with rfl | rfl | rfl <;> exact ⟨by decide, by decide⟩

theorem paramKeyFor_fps (ct title : String) :
    paramKeyFor ct title "fps" = some "fps" := by
  unfold paramKeyFor
  simp

theorem paramKeyFor_clip (title : String) :
    paramKeyFor "CLIPTextEncode" title "text" =
      some (if isNegativeTitle title then "negative_prompt" else "prompt") := by
  unfold paramKeyFor
  simp

theorem paramKeyFor_latent_width {ct : String} (h : ct ∈ latentTypes)
    (title : String) : paramKeyFor ct title "width" = some "width" := by
  obtain ⟨hclip, _⟩ := latent_facts h
  unfold paramKeyFor
  simp [hclip, h]

theorem paramKeyFor_latent_height {ct : String} (h : ct ∈ latentTypes)
    (title : String) : paramKeyFor ct title "height" = some "height" := by
  obtain ⟨hclip, _⟩ := latent_facts h
  unfold paramKeyFor
  simp [hclip, h]

theorem paramKeyFor_latent_batch {ct : String} (h : ct ∈ latentTypes)
    (title : String) : paramKeyFor ct title "batch_size" = some "batch_size" := by
  obtain ⟨hclip, _⟩ := latent_facts h
  unfold paramKeyFor
  simp [hclip, h]

theorem paramKeyFor_latent_length {ct : String} (h : ct ∈ latentTypes)
    (title : String) : paramKeyFor ct title "length" = some "frames" := by
  obtain ⟨hclip, _⟩ := latent_facts h
  unfold paramKeyFor
  simp [hclip, h]

theorem paramKeyFor_sampler_steps {ct : String} (h : ct ∈ samplerTypes)
    (title : String) : paramKeyFor ct title "steps" = some "steps" := by
  obtain ⟨hclip, hlat⟩ := sampler_facts h
  unfold paramKeyFor
  simp [hclip, hlat, h]

theorem paramKeyFor_sampler_cfg {ct : String} (h : ct ∈ samplerTypes)
    (title : String) : paramKeyFor ct title "cfg" = some "cfg_scale" := by
  obtain ⟨hclip, hlat⟩ := sampler_facts h
  unfold paramKeyFor
  simp [hclip, hlat, h]

/-- Relation `provK ct title f a b`: the value of field `f` in `b` is the
value it has in `a`, the value of the field's corresponding param key
(per `paramKeyFor`), or (on sampler nodes) the resolved seed. -/
def provK (params : List (String × PVal)) (seedv : PVal) (ct title f : String)
    (a b : List (String × PVal)) : Prop :=
  getF b f = getF a f ∨
  (∃ pk v, paramKeyFor ct title f = some pk ∧ getF params pk = some v ∧
    getF b f = some v) ∨
  (ct ∈ samplerTypes ∧ (f = "seed" ∨ f = "noise_seed") ∧ getF b f = some seedv)

theorem provK_refl (params : List (String × PVal)) (seedv : PVal)
    (ct title f : String) (a : List (String × PVal)) :
    provK params seedv ct title f a a := Or.inl rfl

theorem provK_trans {params : List (String × PVal)} {seedv : PVal}
    {ct title f : String} {a b c : List (String × PVal)}
    (h1 : provK params seedv ct title f a b)
    (h2 : provK params seedv ct title f b c) :
    provK params seedv ct title f a c := by
  rcases h2 with h2 | h2 | h2
  · rcases h1 with h1 | ⟨pk, v, hpk, hk, hb⟩ | ⟨hs, hf, hb⟩
    · exact Or.inl (h2.trans h1)
    · exact Or.inr (Or.inl ⟨pk, v, hpk, hk, h2.trans hb⟩)
    · exact Or.inr (Or.inr ⟨hs, hf, h2.trans hb⟩)
  · exact Or.inr (Or.inl h2)
  · exact Or.inr (Or.inr h2)

/-- A guarded overwrite whose key `pk` is the correspondence of the field
`g` it writes satisfies the provenance relation for every field. -/
theorem provK_overwriteFrom (params : List (String × PVal)) (seedv : PVal)
    (ct title f : String) (inputs : List (String × PVal)) {pk g : String}
    (hpk : paramKeyFor ct title g = some pk) :
    provK params seedv ct title f inputs (overwriteFrom params inputs pk g) := by
  by_cases hf : f = g
  · subst hf
    cases hc : getF inputs f with
    | none =>
      left
      unfold overwriteFrom
      rw [hc]
      exact hc
    | some cur =>
      cases hp : getF params pk with
      | none =>
        left
        rw [getF_overwriteFrom_self, hc, hp]
        simp [hc]
      | some v =>
        right
        left
        exact ⟨pk, v, hpk, hp, by rw [getF_overwriteFrom_self, hc, hp]; rfl⟩
  · exact Or.inl (getF_overwriteFrom_ne params inputs hf)

theorem provK_stageCLIP (params : List (String × PVal)) (seedv : PVal)
    (f ct title : String) (inputs : List (String × PVal)) :
    provK params seedv ct title f inputs (stageCLIP params ct title inputs) := by
  unfold stageCLIP
  by_cases hct : ct = "CLIPTextEncode"
  · subst hct
    by_cases hn : isNegativeTitle title
    · have hpk : paramKeyFor "CLIPTextEncode" title "text" =
          some "negative_prompt" := by
        rw [paramKeyFor_clip]
        simp [hn]
      simp only [if_pos rfl, hn, if_true]
      exact provK_overwriteFrom params seedv _ title f inputs hpk
    · have hpk : paramKeyFor "CLIPTextEncode" title "text" = some "prompt" := by
        rw [paramKeyFor_clip]
        simp [hn]
      simp only [if_pos rfl, hn, if_false]
      exact provK_overwriteFrom params seedv _ title f inputs hpk
  · simp only [if_neg hct]
    exact provK_refl ..

theorem provK_stageLatent (params : List (String × PVal)) (seedv : PVal)
    (f ct title : String) (inputs : List (String × PVal)) :
    provK params seedv ct title f inputs (stageLatent params ct inputs) := by
  unfold stageLatent
  by_cases hct : ct ∈ latentTypes
  · simp only [if_pos hct]
    exact provK_trans (provK_trans (provK_trans
      (provK_overwriteFrom params seedv ct title f inputs
        (paramKeyFor_latent_width hct title))
      (provK_overwriteFrom params seedv ct title f _
        (paramKeyFor_latent_height hct title)))
      (provK_overwriteFrom params seedv ct title f _
        (paramKeyFor_latent_batch hct title)))
      (provK_overwriteFrom params seedv ct title f _
        (paramKeyFor_latent_length hct title))
  · simp only [if_neg hct]
    exact provK_refl ..

theorem provK_setField_seed (params : List (String × PVal)) (seedv : PVal)
    {ct : String} (title : String) (hsamp : ct ∈ samplerTypes) (f : String)
    (inputs : List (String × PVal)) {g : String}
    (hg : g = "seed" ∨ g = "noise_seed") :
    provK params seedv ct title f inputs (setField inputs g seedv) := by
  by_cases hf : f = g
  · subst hf
    cases hc : getF inputs f with
    | none =>
      left
      rw [getF_setField_self, hc]
      rfl
    | some cur =>
      right
      right
      exact ⟨hsamp, hg, by rw [getF_setField_self, hc]; rfl⟩
  · exact Or.inl (getF_setField_ne inputs seedv hf)

theorem provK_stageSampler (params : List (String × PVal)) (seedv : PVal)
    (f ct title : String) (inputs : List (String × PVal)) :
    provK params seedv ct title f inputs
      (stageSampler params seedv ct inputs) := by
  unfold stageSampler
  by_cases hct : ct ∈ samplerTypes
  · simp only [if_pos hct]
    have h1 := provK_trans
      (provK_overwriteFrom params seedv ct title f inputs
        (paramKeyFor_sampler_steps hct title))
      (provK_overwriteFrom params seedv ct title f _
        (paramKeyFor_sampler_cfg hct title))
    cases hs : getF (overwriteFrom params (overwriteFrom params inputs "steps" "steps") "cfg_scale" "cfg") "seed" with
    | none =>
      cases hn : getF (overwriteFrom params (overwriteFrom params inputs "steps" "steps") "cfg_scale" "cfg") "noise_seed" with
      | none => exact h1
      | some c =>
        exact provK_trans h1
          (provK_setField_seed params seedv title hct f _ (Or.inr rfl))
    | some c =>
      have h2 := provK_trans h1
        (provK_setField_seed params seedv title hct f _ (Or.inl rfl))
      cases hn : getF (setField (overwriteFrom params (overwriteFrom params inputs "steps" "steps") "cfg_scale" "cfg") "seed" seedv) "noise_seed" with
      | none => exact h2
      | some c2 =>
        exact provK_trans h2
          (provK_setField_seed params seedv title hct f _ (Or.inr rfl))
  · simp only [if_neg hct]
    exact provK_refl ..

theorem provK_stageFps (params : List (String × PVal)) (seedv : PVal)
    (f ct title : String) (inputs : List (String × PVal)) :
    provK params seedv ct title f inputs (stageFps params inputs) :=
  provK_overwriteFrom params seedv ct title f inputs (paramKeyFor_fps ct title)

theorem provK_injectNode (params : List (String × PVal)) (seedv : PVal)
    (f : String) (node : Node) :
    provK params seedv node.class_type node.title f node.inputs
      (injectNode params seedv node).inputs := by
  unfold injectNode
  exact provK_trans (provK_trans (provK_trans
    (provK_stageCLIP params seedv f node.class_type node.title node.inputs)
    (provK_stageLatent params seedv f node.class_type node.title _))
    (provK_stageSampler params seedv f node.class_type node.title _))
    (provK_stageFps params seedv f node.class_type node.title _)

instance : Inhabited Node := ⟨⟨"", "", []⟩⟩

/-- Well-formedness carried over from Python dicts: each node's input keys
are pairwise distinct. -/
def wfGraph (g : Graph) : Prop :=
  ∀ p ∈ g, ((p.2 : Node).inputs.map Prod.fst).Nodup

/-! ## Claims C5, C6, C7 about `inject_params` -/

/-- A one-node graph holding a sampler with a `seed` input field. -/
def gSeed : Graph := [("3", ⟨"KSampler", "", [("seed", PVal.i 0)]⟩)]

/-- Claim C5, counterexample: `inject_params` with an empty parameter
mapping is NOT the identity on every graph — on a sampler node with a
`seed` field, the absent `seed` param defaults to −1, a random seed (here
7) is drawn and written into the field, so the result differs from the
input graph. -/
theorem C5_counterexample : inject_params 7 gSeed [] ≠ gSeed := by decide

/-- Claim C5 (amended): injecting with an empty `params` mapping returns a
graph deep-equal to the input provided no sampler node carries a
`seed`/`noise_seed` input field; such fields are overwritten with the
freshly drawn random seed even when `params` is empty. -/
theorem C5_inject_empty_params_amended (rand : Nat) (g : Graph)
    (hwf : wfGraph g)
    (hs : ∀ p ∈ g, (p.2 : Node).class_type ∈ samplerTypes →
      getF (p.2 : Node).inputs "seed" = none ∧
        getF (p.2 : Node).inputs "noise_seed" = none) :
    inject_params rand g [] = g := by
  unfold inject_params
  have hmap : ∀ p ∈ g,
      ((p.1, injectNode [] (resolveSeed [] rand) p.2) : String × Node) = p := by
    intro p hp
    rw [injectNode_nil _ (hwf p hp) (hs p hp)]
  calc g.map (fun p => (p.1, injectNode [] (resolveSeed [] rand) p.2))
      = g.map id := List.map_congr_left hmap
    _ = g := List.map_id g

/-- A graph with an unrecognized node and a prompt-encoder node, none of
which carries sampler seed fields. -/
def gPlain : Graph :=
  [("1", ⟨"CLIPTextEncode", "", [("text", PVal.s "hi")]⟩),
   ("2", ⟨"UnknownNode", "", [("foo", PVal.i 4)]⟩)]

/-- Witness for C5 (amended) at a concrete graph. -/
theorem C5_witness : inject_params 5 gPlain [] = gPlain := by
  have hwf : wfGraph gPlain := by
    intro p hp
    simp only [gPlain, List.mem_cons, List.not_mem_nil, or_false] at hp
    rcases hp with rfl | rfl <;> decide
  have hs : ∀ p ∈ gPlain, (p.2 : Node).class_type ∈ samplerTypes →
      getF (p.2 : Node).inputs "seed" = none ∧
        getF (p.2 : Node).inputs "noise_seed" = none := by
    intro p hp
    simp only [gPlain, List.mem_cons, List.not_mem_nil, or_false] at hp
    rcases hp with rfl | rfl <;> decide
  exact C5_inject_empty_params_amended 5 gPlain hwf hs

/-- A sampler graph whose two seed-bearing fields must both receive the
single resolved seed. -/
def gSampler : Graph :=
  [("s", ⟨"KSamplerAdvanced", "",
      [("noise_seed", PVal.i 3), ("steps", PVal.i 20)]⟩),
   ("t", ⟨"KSampler", "", [("seed", PVal.i 0), ("cfg", PVal.i 8)]⟩)]

def params42 : List (String × PVal) := [("seed", PVal.i 42)]

/-- Claim C6: the seed is resolved once per injection call; every present
seed-bearing field (`seed` and `noise_seed` on every sampler node) of the
returned graph holds that single resolved value; the resolved value is the
random draw when the incoming seed is absent or the sentinel −1, and the
incoming value itself otherwise (e.g. 42). -/
theorem C6_seed_resolution (rand : Nat) (g : Graph)
    (params : List (String × PVal)) :
    (∀ p ∈ inject_params rand g params,
      (p.2 : Node).class_type ∈ samplerTypes →
      ∀ f, (f = "seed" ∨ f = "noise_seed") → (getF (p.2 : Node).inputs f).isSome →
        getF (p.2 : Node).inputs f = some (resolveSeed params rand)) ∧
    ((getF params "seed" = none ∨ getF params "seed" = some (PVal.i (-1))) →
      resolveSeed params rand = PVal.i rand) ∧
    (∀ v, getF params "seed" = some v → v ≠ PVal.i (-1) →
      resolveSeed params rand = v) := by
  refine ⟨?_, ?_, ?_⟩
  · intro p hp hct f hf hsome
    unfold inject_params at hp
    obtain ⟨q, hq, rfl⟩ := List.mem_map.mp hp
    have hctq : (q.2 : Node).class_type ∈ samplerTypes := hct
    have hkeys := keys_injectNode params (resolveSeed params rand) q.2
    have hin : (getF (q.2 : Node).inputs f).isSome := by
      rw [getF_isSome_iff_mem] at hsome ⊢
      rwa [hkeys] at hsome
    exact getF_injectNode_seed params _ hctq hf hin
  · intro h
    rcases h with h | h <;> simp [resolveSeed, h]
  · intro v hv hne
    simp [resolveSeed, hv, hne]

/-- Witness for C6: with `seed = 42` in the params, both seed-bearing
fields of the injected sampler graph hold exactly 42. -/
theorem C6_witness :
    getF ((inject_params 7 gSampler params42).head!).2.inputs "noise_seed" =
        some (PVal.i 42) ∧
      resolveSeed params42 7 = PVal.i 42 := by
  have h2 := (C6_seed_resolution 7 gSampler params42).2.2 (PVal.i 42)
    (by decide) (by decide)
  refine ⟨?_, h2⟩
  have h1 := (C6_seed_resolution 7 gSampler params42).1
    ((inject_params 7 gSampler params42).head!) (by decide) (by decide)
    "noise_seed" (Or.inr rfl) (by decide)
  rw [h1, h2]

/-- A sampler node whose `noise_seed` field is overwritten although the
(empty) parameter mapping holds no corresponding key. -/
def gNoise : Graph := [("7", ⟨"KSamplerAdvanced", "", [("noise_seed", PVal.i 3)]⟩)]

/-- Claim C7, counterexample: the empty mapping contains no param key at
all, yet injection changes a present field (`noise_seed` receives the
random seed, here 9) — so "overwrites a present field only when the
corresponding param key exists in the mapping" fails on the code. -/
theorem C7_counterexample : inject_params 9 gNoise [] ≠ gNoise := by decide

/-- Claim C7 (amended): `inject_params` returns a node-for-node rewrite of
its input (the stored graph value is never mutated — the embedding is a
pure function of a deep copy); it never adds or removes an input field
name; a node whose type tag is outside the recognized set and without an
`fps` field is returned deep-equal; and a present field is overwritten
only when its corresponding param key (per `paramKeyFor`) exists in the
mapping, with exactly that key's value — except the `seed`/`noise_seed`
fields of sampler nodes, which receive the resolved seed even when no
`seed` key exists in the mapping. -/
theorem C7_injection_frame_amended (rand : Nat)
    (params : List (String × PVal)) (g : Graph) :
    List.Forall₂ (fun q p =>
      (p : String × Node).1 = (q : String × Node).1 ∧
      (p.2 : Node).class_type = (q.2 : Node).class_type ∧
      (p.2 : Node).inputs.map Prod.fst = (q.2 : Node).inputs.map Prod.fst ∧
      ((q.2 : Node).class_type ≠ "CLIPTextEncode" →
        (q.2 : Node).class_type ∉ latentTypes →
        (q.2 : Node).class_type ∉ samplerTypes →
        getF (q.2 : Node).inputs "fps" = none → p.2 = q.2) ∧
      (∀ f v, getF (p.2 : Node).inputs f = some v →
        getF (q.2 : Node).inputs f = some v ∨
        (∃ pk w, paramKeyFor (q.2 : Node).class_type (q.2 : Node).title f =
            some pk ∧ getF params pk = some w ∧ v = w) ∨
        ((q.2 : Node).class_type ∈ samplerTypes ∧
          (f = "seed" ∨ f = "noise_seed") ∧ v = resolveSeed params rand)))
      g (inject_params rand g params) := by
  unfold inject_params
  rw [List.forall₂_map_right_iff]
  rw [List.forall₂_same]
  intro q hq
  refine ⟨rfl, rfl, keys_injectNode .., ?_, ?_⟩
  · intro hclip hlat hsamp hfps
    unfold injectNode
    rw [stageCLIP_of_ne params _ _ hclip, stageLatent_of_not_mem params _ hlat,
      stageSampler_of_not_mem params _ _ hsamp, stageFps_of_none params hfps]
  · intro f v hv
    have hprov := provK_injectNode params (resolveSeed params rand) f q.2
    rcases hprov with h | ⟨pk, w, hpk, hk, hout⟩ | ⟨hs, hf, hout⟩
    · left
      rw [← h, hv]
    · right
      left
      rw [hv] at hout
      exact ⟨pk, w, hpk, hk, by injection hout⟩
    · right
      right
      rw [hv] at hout
      exact ⟨hs, hf, by injection hout⟩

/-- Witness for C7 (amended): applied at a concrete graph, the
unrecognized fps-free node passes through injection unchanged. -/
theorem C7_witness :
    injectNode [("prompt", PVal.s "x")]
        (resolveSeed [("prompt", PVal.s "x")] 11)
        ⟨"UnknownNode", "", [("foo", PVal.i 4)]⟩ =
      ⟨"UnknownNode", "", [("foo", PVal.i 4)]⟩ := by
  have h := C7_injection_frame_amended 11 [("prompt", PVal.s "x")] gPlain
  simp only [gPlain, inject_params, List.map_cons] at h
  cases h with
  | cons h1 htail =>
    cases htail with
    | cons h2 _ =>
      exact h2.2.2.2.1 (by decide) (by decide) (by decide) (by decide)

/-! ## Job state machine, worker loop and cancel request
(app/models/job.py, app/core/job_queue.py, app/routers/jobs.py) -/

inductive JobStatus
  | pending
  | running
  | completed
  | failed
  | cancelled
deriving DecidableEq, Repr

/-- The `GenerationJob` record fields the state machine manipulates.
Timestamps are abstract ticks (`datetime.now` values made explicit). -/
structure Job where
  id : String
  status : JobStatus
  progress : Nat
  progress_message : Option String
  error_message : Option String
  started_at : Option Nat
  completed_at : Option Nat
deriving DecidableEq, Repr

/-- A progress-bus event as assembled by the worker's final broadcast. -/
structure Event where
  status : JobStatus
  progress : Nat
  progress_message : Option String
  error_message : Option String
deriving DecidableEq, Repr

/-- The final-broadcast payload built from the job row at commit time. -/
def mkFinal (j : Job) : Event :=
  ⟨j.status, j.progress, j.progress_message, j.error_message⟩

/-- How `execute_job(job, db)` returned inside the worker's try block:
normal return, `asyncio.CancelledError`, or any other exception. -/
inductive ExecOutcome
  | ok
  | cancelled
  | failed (msg : String)
deriving DecidableEq, Repr

/-- The worker's terminal write and final broadcast (job_queue.py lines
49–80), applied to the database row `j` as it stands when `execute_job`
returns.  On normal return the code sets COMPLETED / `completed_at` /
`progress = 100` and commits WITHOUT re-reading the current status; on any
other exception it sets FAILED likewise; on `asyncio.CancelledError` it
re-raises before `db.commit()` and before the broadcast, so the session
closes without committing (the CANCELLED assignment is rolled back) and no
final event is published. -/
def workerFinish (j : Job) (o : ExecOutcome) (now : Nat) : Job × List Event :=
  match o with
  | .ok =>
    let j2 : Job :=
      { j with status := .completed, completed_at := some now, progress := 100 }
    (j2, [mkFinal j2])
  | .failed e =>
    let j2 : Job :=
      { j with status := .failed, error_message := some e,
               completed_at := some now }
    (j2, [mkFinal j2])
  | .cancelled => (j, [])

/-- One pass of the worker loop body over a dequeued id (job_queue.py lines
28–80): the record lookup, the PENDING pre-check, the RUNNING transition,
and the terminal write.  `mid` abstracts what `execute_job` (progress
callbacks and any racing external writes observed by the worker's session)
does to the row while the call is in flight. -/
def workerStep (record : Option Job) (mid : Job → Job) (o : ExecOutcome)
    (tstart tend : Nat) : Option Job × List Event :=
  match record with
  | none => (none, [])
  | some j =>
    if j.status = .pending then
      let jr : Job := { j with status := .running, started_at := some tstart }
      let fin := workerFinish (mid jr) o tend
      (some fin.1, fin.2)
    else (some j, [])

/-- Statuses the cancel route refuses to cancel. -/
def terminalStatus (s : JobStatus) : Bool :=
  s = .completed || s = .failed || s = .cancelled

/-- Result of `DELETE /{job_id}` (routers/jobs.py `cancel_job`). -/
inductive CancelRes
  | notFound
  | invalid (s : JobStatus)
  | ok (j : Job)
deriving DecidableEq, Repr

/-- Model of `cancel_job`: 404 when the record is absent, 400 when the status is
already terminal, else commit `status = CANCELLED`. -/
def cancel_job (record : Option Job) : CancelRes :=
  match record with
  | none => .notFound
  | some j =>
    if terminalStatus j.status then .invalid j.status
    else .ok { j with status := .cancelled }

/-- A RUNNING job row as the worker's session sees it mid-execution. -/
def jRunning : Job :=
  ⟨"job-1", .running, 42, some "Generating", none, some 1, none⟩

/-- The same row after the external cancel request committed CANCELLED. -/
def jCancelledRow : Job := { jRunning with status := .cancelled }

/-- Claim C1: the code violates the claim.  A RUNNING job is cancelled by
the external request while the backend call is in flight (the row becomes
CANCELLED); when `execute_job` then returns normally, the worker's
terminal write commits COMPLETED without checking the current status, so
the terminal CANCELLED state is overwritten by COMPLETED. -/
theorem C1_cancel_overwritten :
    cancel_job (some jRunning) = CancelRes.ok jCancelledRow ∧
      terminalStatus jCancelledRow.status = true ∧
      (workerFinish jCancelledRow ExecOutcome.ok 5).1.status =
        JobStatus.completed := by
  decide

/-- Claim C3: the code violates the claim.  The worker publishes exactly
one final event on normal return and on an ordinary exception, but zero
final events when `asyncio.CancelledError` is raised during execution —
the re-raise skips both the commit and the broadcast. -/
theorem C3_final_event_counts :
    (workerFinish jRunning ExecOutcome.ok 5).2.length = 1 ∧
      (workerFinish jRunning (ExecOutcome.failed "boom") 5).2.length = 1 ∧
      (workerFinish jRunning ExecOutcome.cancelled 5).2.length = 0 ∧
      (workerFinish jRunning ExecOutcome.cancelled 5).1 = jRunning := by
  decide

/-- Claim C9: a dequeued id whose record is absent, or whose status is not
PENDING (in particular a job cancelled while PENDING), is dropped by the
worker without modifying the record and without publishing anything; it
never transitions to RUNNING. -/
theorem C9_pending_precheck (j : Job) (mid : Job → Job) (o : ExecOutcome)
    (t1 t2 : Nat) (h : j.status ≠ .pending) :
    workerStep (some j) mid o t1 t2 = (some j, []) ∧
      workerStep none mid o t1 t2 = (none, []) := by
  constructor
  · simp [workerStep, h]
  · rfl

/-- A PENDING job and its externally cancelled form. -/
def jPending : Job := ⟨"job-2", .pending, 0, none, none, none, none⟩

/-- Witness for C9: a job cancelled while PENDING is dropped unchanged. -/
theorem C9_witness :
    cancel_job (some jPending) =
        CancelRes.ok { jPending with status := .cancelled } ∧
      workerStep (some { jPending with status := .cancelled }) id
          ExecOutcome.ok 1 2 =
        (some { jPending with status := .cancelled }, []) := by
  refine ⟨by decide, ?_⟩
  exact (C9_pending_precheck { jPending with status := .cancelled } id
    ExecOutcome.ok 1 2 (by decide)).1

/-! ## Progress bus (app/core/events.py) -/

/-- A subscriber channel: an `asyncio.Queue`.  `cid` models Python object
identity; `maxsize = 0` is asyncio's default, meaning the queue is
unbounded; `put_nowait` raises `QueueFull` only when `maxsize > 0` and the
buffer already holds `maxsize` items. -/
structure Chan where
  cid : Nat
  maxsize : Nat
  buffer : List String
deriving DecidableEq, Repr

/-- Model of `asyncio.Queue.full()`: true only for a bounded queue at capacity. -/
def chanFull (c : Chan) : Bool := 0 < c.maxsize && c.maxsize ≤ c.buffer.length

/-- The `_subscribers` registry: job id → list of registered channels, in
registration order (a `defaultdict(list)` whose keys are exactly the
registered entries). -/
abbrev Bus := List (String × List Chan)

def busGet : Bus → String → Option (List Chan)
  | [], _ => none
  | (k, v) :: t, j => if k = j then some v else busGet t j

/-- Replace the entry for a key, or append it (defaultdict access). -/
def busSet : Bus → String → List Chan → Bus
  | [], j, cs => [(j, cs)]
  | (k, v) :: t, j, cs => if k = j then (j, cs) :: t else (k, v) :: busSet t j cs

/-- Model of `del _subscribers[job_id]`. -/
def busDel : Bus → String → Bus
  | [], _ => []
  | (k, v) :: t, j => if k = j then t else (k, v) :: busDel t j

/-- Model of `subscribe(job_id)`: create a fresh `asyncio.Queue()` (default
`maxsize = 0`, i.e. unbounded) and append it to the job's entry.  `fresh`
is the new object's identity. -/
def subscribe (jobId : String) (fresh : Nat) (bus : Bus) : Bus × Chan :=
  let c : Chan := ⟨fresh, 0, []⟩
  (busSet bus jobId ((busGet bus jobId).getD [] ++ [c]), c)

/-- Model of `broadcast(job_id, data)`: return unchanged when the id has no entry;
otherwise `put_nowait` the message into every channel, treating a full
channel as dead and unsubscribing it (the entry is deleted when the last
channel dies, mirroring `unsubscribe`'s empty-entry cleanup).  The
publisher never waits on any queue. -/
def broadcast (jobId msg : String) (bus : Bus) : Bus :=
  match busGet bus jobId with
  | none => bus
  | some chans =>
    let upd := chans.filterMap fun c =>
      if chanFull c then none else some { c with buffer := c.buffer ++ [msg] }
    if upd.isEmpty && !chans.isEmpty then busDel bus jobId
    else busSet bus jobId upd

theorem busGet_busSet_self (bus : Bus) (j : String) (cs : List Chan) :
    busGet (busSet bus j cs) j = some cs := by
  induction bus with
  | nil => simp [busSet, busGet]
  | cons p t ih =>
    obtain ⟨k, v⟩ := p
    by_cases h : k = j
    · subst h
      simp [busSet, busGet]
    · simp [busSet, busGet, h, ih]

theorem busGet_eq_none_of_not_mem {bus : Bus} {j : String}
    (h : j ∉ bus.map Prod.fst) : busGet bus j = none := by
  induction bus with
  | nil => rfl
  | cons p t ih =>
    obtain ⟨k, v⟩ := p
    simp only [List.map_cons, List.mem_cons, not_or] at h
    simp [busGet, Ne.symm h.1, ih h.2]

theorem busGet_busDel_self (bus : Bus) (j : String)
    (hnd : (bus.map Prod.fst).Nodup) : busGet (busDel bus j) j = none := by
  induction bus with
  | nil => rfl
  | cons p t ih =>
    obtain ⟨k, v⟩ := p
    simp only [List.map_cons, List.nodup_cons] at hnd
    by_cases h : k = j
    · subst h
      simp only [busDel, if_pos rfl]
      exact busGet_eq_none_of_not_mem hnd.1
    · simp [busDel, busGet, h, ih hnd.2]

/-- A concrete registry holding one full bounded channel (hand-made: the
code itself never creates bounded channels) and one empty unbounded one. -/
def bus0 : Bus := [("j", [⟨0, 1, ["x"]⟩, ⟨1, 0, []⟩])]

/-- Claim C4, counterexample: `subscribe` does NOT create a bounded
channel — it creates `asyncio.Queue()` with the default `maxsize = 0`,
which is unbounded and is never full at any buffer size (shown here at
1000 buffered messages), so the "bounded channel" part of the claim fails
on the code. -/
theorem C4_counterexample :
    (subscribe "job-1" 0 []).2.maxsize = 0 ∧
      chanFull ⟨(subscribe "job-1" 0 []).2.cid, (subscribe "job-1" 0 []).2.maxsize,
        List.replicate 9 "m"⟩ = false := by
  constructor
  · rfl
  · rfl

/-- Claim C4 (amended): `subscribe` creates an unbounded channel
(`maxsize = 0`); `publish` delivers with `put_nowait` and never waits on a
queue: a channel that is full (only possible for a bounded channel, which
`subscribe` never produces) is unsubscribed from the registry instead of
being blocked on, a non-full channel receives the message appended to its
buffer, and publishing to a job id with no registry entry returns the
registry and every channel unchanged. -/
theorem C4_publish_amended :
    (∀ (bus : Bus) (j m : String), busGet bus j = none →
      broadcast j m bus = bus) ∧
    (∀ (j : String) (fresh : Nat) (bus : Bus),
      (subscribe j fresh bus).2.maxsize = 0) ∧
    (∀ (bus : Bus) (j m : String) (chans : List Chan) (c : Chan),
      (bus.map Prod.fst).Nodup → busGet bus j = some chans →
      (chans.map Chan.cid).Nodup → c ∈ chans → chanFull c = true →
      ∀ c2 ∈ (busGet (broadcast j m bus) j).getD [], c2.cid ≠ c.cid) ∧
    (∀ (bus : Bus) (j m : String) (chans : List Chan) (c : Chan),
      busGet bus j = some chans → c ∈ chans → chanFull c = false →
      { c with buffer := c.buffer ++ [m] } ∈
        (busGet (broadcast j m bus) j).getD []) := by
  refine ⟨?_, ?_, ?_, ?_⟩
  · intro bus j m h
    simp [broadcast, h]
  · intro j fresh bus
    rfl
  · intro bus j m chans c hndk hb hndc hc hfull
    intro c2 hc2
    simp only [broadcast, hb] at hc2
    split at hc2
    · rw [busGet_busDel_self bus j hndk] at hc2
      simp at hc2
    · rw [busGet_busSet_self] at hc2
      simp only [Option.getD_some, List.mem_filterMap] at hc2
      obtain ⟨c0, hc0, heq⟩ := hc2
      by_cases hf0 : chanFull c0 = true
      · rw [if_pos hf0] at heq
        exact absurd heq (by simp)
      · rw [if_neg hf0] at heq
        obtain rfl := Option.some.inj heq
        intro hcid
        have hc0c : c0 = c := List.inj_on_of_nodup_map hndc hc0 hc hcid
        rw [hc0c] at hf0
        exact hf0 hfull
  · intro bus j m chans c hb hc hnotfull
    have hmem : { c with buffer := c.buffer ++ [m] } ∈
        chans.filterMap fun c =>
          if chanFull c then none
          else some { c with buffer := c.buffer ++ [m] } := by
      rw [List.mem_filterMap]
      exact ⟨c, hc, by simp [hnotfull]⟩
    simp only [broadcast, hb]
    split
    · next hcase =>
      exfalso
      have hemp := (Bool.and_eq_true _ _).mp hcase |>.1
      rw [List.isEmpty_iff] at hemp
      rw [hemp] at hmem
      exact (List.not_mem_nil _) hmem
    · rw [busGet_busSet_self]
      simpa using hmem

/-- Witness for C4 (amended) at the concrete registry `bus0`. -/
theorem C4_witness :
    broadcast "k" "m" bus0 = bus0 ∧
      (subscribe "j" 5 bus0).2.maxsize = 0 ∧
      ((⟨0, 1, ["x", "m"]⟩ : Chan) ∈
          (busGet (broadcast "j" "m" bus0) "j").getD [] → False) ∧
      (⟨1, 0, ["m"]⟩ : Chan) ∈ (busGet (broadcast "j" "m" bus0) "j").getD [] := by
  refine ⟨?_, ?_, ?_, ?_⟩
  · exact C4_publish_amended.1 bus0 "k" "m" (by decide)
  · exact C4_publish_amended.2.1 "j" 5 bus0
  · intro hmem
    exact C4_publish_amended.2.2.1 bus0 "j" "m" [⟨0, 1, ["x"]⟩, ⟨1, 0, []⟩]
      ⟨0, 1, ["x"]⟩ (by decide) (by decide) (by decide) (by decide) (by decide)
      ⟨0, 1, ["x", "m"]⟩ hmem rfl
  · have h := C4_publish_amended.2.2.2 bus0 "j" "m"
      [⟨0, 1, ["x"]⟩, ⟨1, 0, []⟩] ⟨1, 0, []⟩ (by decide) (by decide) (by decide)
    simpa using h

/-! ## Submit/poll/download protocol
(comfyui_service.py `submit_workflow`, `_download_output`) -/

/-- A file descriptor emitted by an output node
(filename / subfolder / type triple). -/
structure FileInfo where
  filename : String
  subfolder : String
  ftype : String
deriving DecidableEq, Repr

/-- One node's output entry in the history response; the code walks the
`images`, `videos` and `gifs` lists, in that order. -/
structure NodeOutput where
  images : List FileInfo
  videos : List FileInfo
  gifs : List FileInfo
deriving DecidableEq, Repr

/-- The `/history/{prompt_id}` response observed at a given poll tick. -/
inductive HistResp
  | httpErr
  | absent
  | entry (err : Option String) (outputs : List (String × NodeOutput))
deriving DecidableEq, Repr

def nodeFiles (o : NodeOutput) : List FileInfo := o.images ++ o.videos ++ o.gifs

/-- All file descriptors in history-walk order. -/
def outputFiles (outputs : List (String × NodeOutput)) : List FileInfo :=
  (outputs.map fun p => nodeFiles p.2).flatten

/-- The capped progress ramp `min(int((elapsed / 30) * 80), 80)` reported
while the prompt is still absent from the history (integer arithmetic;
the value is an advisory estimate). -/
def rampPct (elapsed : Nat) : Nat := min (elapsed * 80 / 30) 80

/-- Outcome of the poll loop: progress events emitted, download attempts
made (each `_download_output` call), and `some` result when the loop hit a
decisive response (`none` when the 600-tick wait bound ran out). -/
structure PollOut where
  events : List (Nat × String)
  attempts : List FileInfo
  outcome : Option (Except String (List String))

/-- The `while elapsed < max_wait` poll loop of `submit_workflow`.  `hist`
gives the history response at each elapsed tick; `dl` is the result of
`_download_output` for a descriptor (`none` models a logged-and-skipped
download failure).  Each iteration sleeps one tick, re-reads the history,
treats an HTTP error or a missing prompt id as still-running (the latter
with a ramp progress event), raises on a history entry with an `error`
field, and otherwise downloads every emitted descriptor, keeping the
successes, reports 95% and stops. -/
def pollLoop (hist : Nat → HistResp) (dl : FileInfo → Option String) :
    Nat → Nat → PollOut
  | _, 0 => ⟨[], [], none⟩
  | elapsed, fuel + 1 =>
    let e := elapsed + 1
    match hist e with
    | .httpErr => pollLoop hist dl e fuel
    | .absent =>
      let r := pollLoop hist dl e fuel
      ⟨(rampPct e, "Generating... (" ++ toString e ++ "s elapsed)") :: r.events,
        r.attempts, r.outcome⟩
    | .entry (some err) _ => ⟨[], [], some (.error ("ComfyUI error: " ++ err))⟩
    | .entry none outs =>
      let att := outputFiles outs
      ⟨[(95, "Downloading outputs")], att, some (.ok (att.filterMap dl))⟩

/-- Result of a whole `submit_workflow` call. -/
structure SubmitRes where
  files : List String
  events : List (Nat × String)
  attempts : List FileInfo
  result : Except String (List String)

/-- Model of `submit_workflow` after a successful queuing POST: report 5%
("Queued in ComfyUI"), run the poll loop for up to 600 ticks, and raise
`"ComfyUI job {prompt_id} timed out or produced no output"` exactly when
the collected file list is empty (that covers the timeout case and the
all-downloads-failed case); a history `error` entry raises immediately
with the service-reported text. -/
def submit_workflow (hist : Nat → HistResp) (dl : FileInfo → Option String)
    (prompt_id : String) : SubmitRes :=
  let p := pollLoop hist dl 0 600
  let ev := (5, "Queued in ComfyUI") :: p.events
  match p.outcome with
  | some (.error e) => ⟨[], ev, p.attempts, .error e⟩
  | some (.ok files) =>
    if files.isEmpty then
      ⟨files, ev, p.attempts,
        .error ("ComfyUI job " ++ prompt_id ++ " timed out or produced no output")⟩
    else ⟨files, ev, p.attempts, .ok files⟩
  | none =>
    ⟨[], ev, p.attempts,
      .error ("ComfyUI job " ++ prompt_id ++ " timed out or produced no output")⟩

/-- A history response that keeps the submission undecided: an HTTP error
or a prompt id not yet present. -/
def indecisive : HistResp → Prop
  | .httpErr => True
  | .absent => True
  | .entry _ _ => False

/-- If every tick strictly before `k` is indecisive and `k` is within the
wait bound, the loop's outcome is decided by the response at tick `k`. -/
theorem pollLoop_reaches (hist : Nat → HistResp) (dl : FileInfo → Option String) :
    ∀ (fuel elapsed k : Nat), elapsed < k → k ≤ elapsed + fuel →
    (∀ j, elapsed < j → j < k → indecisive (hist j)) →
    (∀ err outs, hist k = .entry (some err) outs →
      (pollLoop hist dl elapsed fuel).outcome =
          some (.error ("ComfyUI error: " ++ err)) ∧
        (pollLoop hist dl elapsed fuel).attempts = []) ∧
    (∀ outs, hist k = .entry none outs →
      (pollLoop hist dl elapsed fuel).outcome =
          some (.ok ((outputFiles outs).filterMap dl)) ∧
        (pollLoop hist dl elapsed fuel).attempts = outputFiles outs) := by
  intro fuel
  induction fuel with
  | zero =>
    intro elapsed k h1 h2 _
    omega
  | succ fuel ih =>
    intro elapsed k h1 h2 hind
    by_cases he : elapsed + 1 = k
    · subst he
      cases hk : hist (elapsed + 1) with
      | httpErr =>
        exact ⟨fun err outs h => (by cases h), fun outs h => (by cases h)⟩
      | absent =>
        exact ⟨fun err outs h => (by cases h), fun outs h => (by cases h)⟩
      | entry err outs =>
        cases err with
        | some e =>
          constructor
          · intro err2 outs2 h
            injection h with h1 h2
            injection h1 with h1
            subst h1
            simp [pollLoop, hk]
          · intro outs2 h
            injection h with h1 h2
            exact Option.noConfusion h1
        | none =>
          constructor
          · intro err2 outs2 h
            injection h with h1 h2
            exact Option.noConfusion h1
          · intro outs2 h
            injection h with h1 h2
            subst h2
            simp [pollLoop, hk]
    · have helt : elapsed + 1 < k := by omega
      have hi : indecisive (hist (elapsed + 1)) :=
        hind (elapsed + 1) (by omega) helt
      have hrec := ih (elapsed + 1) k helt (by omega)
        (fun j hj hjk => hind j (by omega) hjk)
      cases hk : hist (elapsed + 1) with
      | httpErr =>
        constructor
        · intro err outs h
          have := (hrec.1 err outs h)
          simpa [pollLoop, hk] using this
        · intro outs h
          have := (hrec.2 outs h)
          simpa [pollLoop, hk] using this
      | absent =>
        constructor
        · intro err outs h
          have := (hrec.1 err outs h)
          simpa [pollLoop, hk] using this
        · intro outs h
          have := (hrec.2 outs h)
          simpa [pollLoop, hk] using this
      | entry err outs =>
        rw [hk] at hi
        cases hi

/-- Claim C8: if the first decisive history response (at some tick `k`
within the 600-tick wait bound) carries an `error` field, the submission
raises immediately with the service-reported error text and attempts no
file download; if it carries outputs, each failed download is skipped and
the collected files are exactly the successful downloads, the submission
succeeding precisely when at least one download succeeded; and in every
case the submission raises if and only if the final collected-file list is
empty. -/
theorem C8_error_handling (hist : Nat → HistResp) (dl : FileInfo → Option String)
    (pid : String) (k : Nat) (hk1 : 1 ≤ k) (hk6 : k ≤ 600)
    (hind : ∀ j, 1 ≤ j → j < k → indecisive (hist j)) :
    (∀ err outs, hist k = .entry (some err) outs →
      (submit_workflow hist dl pid).result = .error ("ComfyUI error: " ++ err) ∧
        (submit_workflow hist dl pid).attempts = []) ∧
    (∀ outs, hist k = .entry none outs →
      (submit_workflow hist dl pid).files = (outputFiles outs).filterMap dl ∧
        ((submit_workflow hist dl pid).result.isOk = true ↔
          (outputFiles outs).filterMap dl ≠ [])) ∧
    ((submit_workflow hist dl pid).result.isOk = true ↔
      (submit_workflow hist dl pid).files ≠ []) := by
  have hreach := pollLoop_reaches hist dl 600 0 k (by omega) (by omega)
    (fun j hj hjk => hind j hj hjk)
  refine ⟨?_, ?_, ?_⟩
  · intro err outs h
    obtain ⟨ho, ha⟩ := hreach.1 err outs h
    simp [submit_workflow, ho, ha]
  · intro outs h
    obtain ⟨ho, ha⟩ := hreach.2 outs h
    by_cases hemp : (outputFiles outs).filterMap dl = []
    · simp [submit_workflow, ho, ha, hemp, Except.isOk, Except.toBool]
    · simp [submit_workflow, ho, ha, hemp, Except.isOk, Except.toBool]
  · cases ho : (pollLoop hist dl 0 600).outcome with
    | none => simp [submit_workflow, ho, Except.isOk, Except.toBool]
    | some r =>
      cases r with
      | error e => simp [submit_workflow, ho, Except.isOk, Except.toBool]
      | ok files =>
        by_cases hemp : files.isEmpty
        · rw [List.isEmpty_iff] at hemp
          simp [submit_workflow, ho, hemp, Except.isOk, Except.toBool]
        · have hne : files ≠ [] := by
            intro hx
            rw [hx] at hemp
            exact hemp rfl
          simp [submit_workflow, ho, hne, Except.isOk, Except.toBool]

/-- A history whose very first poll reports a service error. -/
def histErr : Nat → HistResp := fun _ => .entry (some "boom") []

/-- A history whose very first poll reports one finished image output. -/
def histOk : Nat → HistResp := fun _ =>
  .entry none [("9", ⟨[⟨"f.png", "", "output"⟩], [], []⟩)]

/-- Downloads that always fail (logged and skipped in the code). -/
def dlFail : FileInfo → Option String := fun _ => none

/-- Downloads that always succeed, landing under the images directory with
a unique prefix. -/
def dlOk : FileInfo → Option String := fun fi =>
  some ("outputs/images/ab12cd34_" ++ fi.filename)

/-- Witness for C8: at a concrete history reporting an error on the first
poll, the submission fails with the reported text and attempts no
download; at a history with one output and failing downloads, the file is
skipped and the empty collection makes the submission raise. -/
theorem C8_witness :
    ((submit_workflow histErr dlOk "p-1").result =
        .error "ComfyUI error: boom" ∧
      (submit_workflow histErr dlOk "p-1").attempts = []) ∧
    ((submit_workflow histOk dlFail "p-2").files = [] ∧
      (submit_workflow histOk dlFail "p-2").result.isOk = false) := by
  constructor
  · have h := (C8_error_handling histErr dlOk "p-1" 1 (le_refl 1) (by omega)
      (fun j hj hjk => absurd hj (by omega))).1 "boom" [] rfl
    exact h
  · have h := (C8_error_handling histOk dlFail "p-2" 1 (le_refl 1) (by omega)
      (fun j hj hjk => absurd hj (by omega))).2.1
      [("9", ⟨[⟨"f.png", "", "output"⟩], [], []⟩)] rfl
    refine ⟨?_, ?_⟩
    · rw [h.1]
      rfl
    · have h2 := h.2
      have hx : (outputFiles [("9", (⟨[⟨"f.png", "", "output"⟩], [], []⟩ : NodeOutput))]).filterMap dlFail = [] := rfl
      rw [hx] at h2
      simp at h2
      exact h2

/-! ## Progress value sequences (job_service.py)

The progress values written to the job while it is RUNNING, in program
order: the RUNNING transition leaves the column at its default 0 and the
code then drives the `progress(pct, msg)` callback.  Neither mock service
invokes the callback, so the mock path is `execute_job`'s
`progress(1, "Starting")` followed by `_execute_mock`'s
`progress(10, ...)` and `progress(90, ...)`.  The real path is
`progress(1)`, `progress(5, "Loaded workflow...")`,
`progress(10, "Parameters injected")`, then every callback made by
`submit_workflow`, then `progress(98, "Outputs saved")` on success. -/

def mockProgressValues : List Nat := [0, 1, 10, 90]

def realProgressValues (hist : Nat → HistResp) (dl : FileInfo → Option String)
    (pid : String) : List Nat :=
  0 :: 1 :: 5 :: 10 ::
    ((submit_workflow hist dl pid).events.map Prod.fst) ++
      (match (submit_workflow hist dl pid).result with
        | .ok _ => [98]
        | .error _ => [])

/-- Claim C2, counterexample: in REAL mode the progress sequence is not
monotonically non-decreasing — `submit_workflow` reports
5 ("Queued in ComfyUI") after `_execute_real` already reported
10 ("Parameters injected"), so a successful run that finds its output on
the first poll produces 0, 1, 5, 10, 5, 95, 98. -/
theorem C2_counterexample :
    ¬ List.Chain' (· ≤ ·) (realProgressValues histOk dlOk "p-1") := by
  have h : realProgressValues histOk dlOk "p-1" = [0, 1, 5, 10, 5, 95, 98] := by
    rfl
  rw [h]
  simp [List.chain'_cons]

/-- Claim C2 (amended): in MOCK mode the written progress sequence is
monotonically non-decreasing, but in REAL mode it is not (see the
counterexample); and for any job the worker finishes, progress equals 100
iff the status is COMPLETED, provided the job was below 100 and not
COMPLETED when `execute_job` returned — the worker pins progress to 100
exactly at its COMPLETED transition and never elsewhere. -/
theorem C2_progress_amended :
    List.Chain' (· ≤ ·) mockProgressValues ∧
      ∀ (j : Job) (o : ExecOutcome) (now : Nat),
        j.progress < 100 → j.status ≠ .completed →
        ((workerFinish j o now).1.progress = 100 ↔
          (workerFinish j o now).1.status = .completed) := by
  constructor
  · simp [mockProgressValues, List.chain'_cons]
  · intro j o now hp hs
    cases o with
    | ok => simp [workerFinish]
    | cancelled =>
      simp only [workerFinish]
      constructor
      · intro h
        omega
      · intro h
        exact absurd h hs
    | failed e =>
      simp only [workerFinish]
      constructor
      · intro h
        omega
      · intro h
        cases h

/-- Witness for C2 (amended) at a concrete running job. -/
theorem C2_witness :
    (workerFinish jRunning ExecOutcome.cancelled 5).1.progress = 100 ↔
      (workerFinish jRunning ExecOutcome.cancelled 5).1.status =
        JobStatus.completed := by
  exact C2_progress_amended.2 jRunning ExecOutcome.cancelled 5
    (by decide) (by decide)

/-! ## Workflow listing and default-workflow resolution
(comfyui_service.py `list_workflows`, job_service.py `_execute_real`) -/

/-- Code points of a string, for the lexicographic comparison Python's
`sorted` applies to file stems. -/
def strCodes (s : String) : List Nat := s.data.map Char.toNat

/-- Lexicographic ≤ on code-point lists. -/
def codeLe : List Nat → List Nat → Bool
  | [], _ => true
  | _ :: _, [] => false
  | a :: as, b :: bs =>
    if a < b then true else if a = b then codeLe as bs else false

/-- Python string ordering (code-point lexicographic ≤). -/
def pyLe (a b : String) : Prop := codeLe (strCodes a) (strCodes b) = true

instance : DecidableRel pyLe := fun a b =>
  instDecidableEqBool (codeLe (strCodes a) (strCodes b)) true

theorem codeLe_refl : ∀ x : List Nat, codeLe x x = true := by
  intro x
  induction x with
  | nil => rfl
  | cons a as ih => simp [codeLe, ih]

theorem codeLe_total : ∀ x y : List Nat, codeLe x y = true ∨ codeLe y x = true := by
  intro x
  induction x with
  | nil =>
    intro y
    left
    rfl
  | cons a as ih =>
    intro y
    cases y with
    | nil =>
      right
      rfl
    | cons b bs =>
      rcases lt_trichotomy a b with h | h | h
      · left
        simp [codeLe, h]
      · subst h
        rcases ih bs with h2 | h2
        · left
          simp [codeLe, h2]
        · right
          simp [codeLe, h2]
      · right
        simp [codeLe, h]

theorem codeLe_trans :
    ∀ x y z : List Nat, codeLe x y = true → codeLe y z = true →
      codeLe x z = true := by
  intro x
  induction x with
  | nil =>
    intro y z _ _
    rfl
  | cons a as ih =>
    intro y z hxy hyz
    cases y with
    | nil => cases hxy
    | cons b bs =>
      cases z with
      | nil => cases hyz
      | cons c cs =>
        simp only [codeLe] at hxy hyz ⊢
        by_cases hab : a < b
        · by_cases hbc : b < c
          · simp [show a < c by omega]
          · simp only [if_neg hbc] at hyz
            by_cases hbc2 : b = c
            · subst hbc2
              simp [hab]
            · simp [hbc2] at hyz
        · simp only [if_neg hab] at hxy
          by_cases hab2 : a = b
          · subst hab2
            simp only [if_pos rfl] at hxy
            by_cases hac : a < c
            · simp [hac]
            · by_cases hbc : a < c
              · omega
              · simp only [if_neg hbc] at hyz ⊢
                by_cases hbc2 : a = c
                · simp only [if_pos hbc2] at hyz ⊢
                  exact ih bs cs hxy hyz
                · simp [hbc2] at hyz
          · simp [hab2] at hxy

instance : IsTotal String pyLe := ⟨fun a b => codeLe_total (strCodes a) (strCodes b)⟩

instance : IsTrans String pyLe :=
  ⟨fun a b c => codeLe_trans (strCodes a) (strCodes b) (strCodes c)⟩

/-- Model of `ComfyUIService.list_workflows`: the stems of the workflow JSON files,
sorted ascending by Python string order.  `stems` is the directory's file
stems in filesystem order. -/
def list_workflows (stems : List String) : List String :=
  List.insertionSort pyLe stems

/-- The workflow-name resolution at the top of `_execute_real` (lines
82–93): the payload's `workflow` entry defaults to `""`; an empty name
falls back to the first stored workflow when one exists, and `none`
models the `RuntimeError("No ComfyUI workflow specified and no workflows
are available. ...")` configuration error raised when the name is still
empty. -/
def resolveWorkflowName (name : String) (stems : List String) : Option String :=
  let ws := list_workflows stems
  if name = "" then ws.head? else some name

/-- Claim C10: with no workflow name in the payload, execution silently
falls back to the alphabetically first stored workflow stem whenever at
least one is stored (the resolved name is a stored stem that is ≤ every
stored stem in Python string order), and the configuration error is
raised exactly when zero workflows are stored. -/
theorem C10_default_workflow (stems : List String) :
    (stems ≠ [] →
      ∃ w, resolveWorkflowName "" stems = some w ∧ w ∈ stems ∧
        ∀ x ∈ stems, pyLe w x) ∧
    (resolveWorkflowName "" stems = none ↔ stems = []) := by
  have hperm : (list_workflows stems).Perm stems :=
    List.perm_insertionSort pyLe stems
  have hsorted : List.Sorted pyLe (list_workflows stems) :=
    List.sorted_insertionSort pyLe stems
  constructor
  · intro hne
    have hwsne : list_workflows stems ≠ [] := by
      intro h
      exact hne (hperm.symm.trans (h ▸ List.Perm.refl []) |>.eq_nil)
    cases hws : list_workflows stems with
    | nil => exact absurd hws hwsne
    | cons w t =>
      refine ⟨w, ?_, ?_, ?_⟩
      · simp [resolveWorkflowName, hws]
      · have : w ∈ list_workflows stems := by
          rw [hws]
          exact List.mem_cons_self w t
        exact hperm.mem_iff.mp this
      · intro x hx
        have hxws : x ∈ list_workflows stems := hperm.mem_iff.mpr hx
        rw [hws] at hxws
        rcases List.mem_cons.mp hxws with rfl | hxt
        · exact codeLe_refl (strCodes x)
        · rw [hws] at hsorted
          exact List.rel_of_sorted_cons hsorted x hxt
  · constructor
    · intro h
      simp only [resolveWorkflowName, if_true] at h
      simp only [List.head?_eq_none_iff] at h
      exact (hperm.symm.trans (h ▸ List.Perm.refl [])).eq_nil
    · intro h
      subst h
      rfl

/-- Witness for C10: with stems stored out of order, the resolved default
is the alphabetically first stem, and resolution does not raise. -/
theorem C10_witness :
    pyLe "wf-a" "wf-b" ∧ resolveWorkflowName "" ["wf-b", "wf-a"] ≠ none := by
  obtain ⟨w, hw, hmem, hall⟩ :=
    (C10_default_workflow ["wf-b", "wf-a"]).1 (by decide)
  have hwa : w = "wf-a" := by
    have hcomp : resolveWorkflowName "" ["wf-b", "wf-a"] = some "wf-a" := by
      decide
    rw [hcomp] at hw
    exact (Option.some.inj hw).symm
  constructor
  · subst hwa
    exact hall "wf-b" (by decide)
  · intro h
    have := (C10_default_workflow ["wf-b", "wf-a"]).2.mp h
    cases this
